import Mathlib

/-!
Shallow embedding of the HTML Document Assembler (`build_html.py`) and of the
chunked translation helper (`translate_html_to_chinese.py`).

Character-level helpers model the Python regular expressions used by the
source; the heading/section passes are modelled over a tokenized body, where
one token is either a heading element (as matched by the source's heading
regex `<h([1-4])([^>]*)>(.*?)</h\1>`), an inserted navigation element, a
`src="..."` attribute reference, or plain interstitial text.  Non-ASCII case
mapping is modelled by ASCII case mapping (the inputs the scripts process are
ASCII-regex driven: every character class in the source is ASCII).
-/

namespace BuildHtml

/-- ASCII lower-casing of one character, the case mapping relevant to the
ASCII character classes of the source's regexes. -/
def asciiLower (c : Char) : Char :=
  match c with
  | 'A' => 'a' | 'B' => 'b' | 'C' => 'c' | 'D' => 'd' | 'E' => 'e' | 'F' => 'f'
  | 'G' => 'g' | 'H' => 'h' | 'I' => 'i' | 'J' => 'j' | 'K' => 'k' | 'L' => 'l'
  | 'M' => 'm' | 'N' => 'n' | 'O' => 'o' | 'P' => 'p' | 'Q' => 'q' | 'R' => 'r'
  | 'S' => 's' | 'T' => 't' | 'U' => 'u' | 'V' => 'v' | 'W' => 'w' | 'X' => 'x'
  | 'Y' => 'y' | 'Z' => 'z'
  | c => c

/-- ASCII upper-casing of one character (used by Python's `str.title`). -/
def asciiUpper (c : Char) : Char :=
  match c with
  | 'a' => 'A' | 'b' => 'B' | 'c' => 'C' | 'd' => 'D' | 'e' => 'E' | 'f' => 'F'
  | 'g' => 'G' | 'h' => 'H' | 'i' => 'I' | 'j' => 'J' | 'k' => 'K' | 'l' => 'L'
  | 'm' => 'M' | 'n' => 'N' | 'o' => 'O' | 'p' => 'P' | 'q' => 'Q' | 'r' => 'R'
  | 's' => 'S' | 't' => 'T' | 'u' => 'U' | 'v' => 'V' | 'w' => 'W' | 'x' => 'X'
  | 'y' => 'Y' | 'z' => 'Z'
  | c => c

/-- Word character of the regex `\b` boundary: `[a-zA-Z0-9_]`. -/
def isWordChar (c : Char) : Bool :=
  c.isAlphanum || c == '_'

/-- Character class `[a-zA-Z0-9_-]` of the slug substitution in
`_add_heading_ids` (line 69 of `build_html.py`). -/
def isSlugChar (c : Char) : Bool :=
  c.isAlphanum || c == '_' || c == '-'

/-- Lowercase ASCII letter, the class `[a-z]` of the scheme regex in
`_rewrite_src`. -/
def isLowerAlpha (c : Char) : Bool :=
  'a' ≤ c && c ≤ 'z'

/-- Whitespace for Python's `str.strip()` and the regex class `\s`. -/
def isWs (c : Char) : Bool :=
  c == ' ' || c == '\t' || c == '\n' || c == '\r'

/-- Python `str.strip()`: drop whitespace from both ends. -/
def pyStrip (cs : List Char) : List Char :=
  ((cs.dropWhile isWs).reverse.dropWhile isWs).reverse

/-- Model of `str.strip()` on `String`s. -/
def pyStripS (s : String) : String :=
  String.mk (pyStrip s.data)

/-- Model of `re.sub(r"[^a-zA-Z0-9_-]+", "-", ·)`: replace every maximal run of
characters outside the slug class by a single hyphen.  The flag records
whether the previous character was part of such a run. -/
def subRunsAux (inRun : Bool) : List Char → List Char
  | [] => []
  | c :: cs =>
    if isSlugChar c then c :: subRunsAux false cs
    else if inRun then subRunsAux true cs
    else '-' :: subRunsAux true cs

/-- Model of `re.sub(r"[^a-zA-Z0-9_-]+", "-", ·)` on a whole text. -/
def subRuns (cs : List Char) : List Char :=
  subRunsAux false cs

/-- Python `str.strip("-")`: drop hyphens from both ends. -/
def trimDashes (cs : List Char) : List Char :=
  ((cs.dropWhile (· == '-')).reverse.dropWhile (· == '-')).reverse

/-- The slug of a display text as computed at line 69 of `build_html.py`:
`re.sub(r"[^a-zA-Z0-9_-]+", "-", display_text).strip("-").lower()`. -/
def slugOf (displayText : String) : String :=
  String.mk ((trimDashes (subRuns displayText.data)).map asciiLower)

/-- Modelled from the spec (§4.3 step 3), for comparison with `slugOf`:
lowercase first, then replace runs outside the class, then trim hyphens. -/
def slugSpecOrder (displayText : String) : String :=
  String.mk (trimDashes (subRuns (displayText.data.map asciiLower)))


/-- Model of `re.search(r"\bpart\b", s, re.IGNORECASE)` scanned over a character list;
`prev` is the character just before the current position (`none` at the start
of the text). -/
def hasPartWordAux (prev : Option Char) : List Char → Bool
  | [] => false
  | c1 :: rest =>
    (match rest with
     | c2 :: c3 :: c4 :: rest' =>
       (asciiLower c1 == 'p' && asciiLower c2 == 'a' &&
        asciiLower c3 == 'r' && asciiLower c4 == 't')
       && (match prev with
           | none => true
           | some p => !isWordChar p)
       && (match rest' with
           | [] => true
           | n :: _ => !isWordChar n)
     | _ => false)
    || hasPartWordAux (some c1) rest

/-- Model of `re.search(r"\bpart\b", s, re.IGNORECASE) is not None` — the
section-marker predicate of lines 102 and 115 of `build_html.py`. -/
def hasPartWord (s : String) : Bool :=
  hasPartWordAux none s.data

/-- Case-insensitive (ASCII) prefix test between character lists. -/
def isPrefixCI : List Char → List Char → Bool
  | [], _ => true
  | _ :: _, [] => false
  | p :: ps, c :: cs => (asciiLower p == asciiLower c) && isPrefixCI ps cs

/-- First index at which `needle` occurs (case-insensitively) in the list,
scanning left to right. -/
def findSubCI (needle : List Char) : List Char → Option Nat
  | [] => if isPrefixCI needle [] then some 0 else none
  | c :: cs =>
    if isPrefixCI needle (c :: cs) then some 0
    else (findSubCI needle cs).map (· + 1)

/-- Case-insensitive substring test: `(findSubCI needle hay).isSome`. -/
def containsCI (needle hay : List Char) : Bool :=
  (findSubCI needle hay).isSome

/-- The closing tag text `</tag>`. -/
def closeTag (tag : List Char) : List Char :=
  '<' :: '/' :: (tag ++ ['>'])

/-- One attempt of the regex `<{tag}[^>]*>(.*?)</{tag}>` (DOTALL,
IGNORECASE) anchored at the start of `s`: the literal `<` and tag name,
a greedy run of non-`>` characters, a `>`, then the shortest inner text
followed by the closing tag.  Returns the inner text on success. -/
def tryOpenTag (tag s : List Char) : Option (List Char) :=
  if isPrefixCI ('<' :: tag) s then
    let after := s.drop (tag.length + 1)
    let b := after.dropWhile (fun c => c != '>')
    match b with
    | [] => none
    | _ :: b' =>
      match findSubCI (closeTag tag) b' with
      | none => none
      | some k => some (b'.take k)
  else none

/-- The scan of `re.search` for the pattern of `_tag`: try every start
position left to right. -/
def tagScan (tag : List Char) : List Char → Option (List Char)
  | [] => none
  | c :: cs =>
    match tryOpenTag tag (c :: cs) with
    | some inner => some inner
    | none => tagScan tag cs

/-- Model of `_tag(text, tag)` (lines 29-31 of `build_html.py`): the stripped inner
text of the first `<tag ...>...</tag>` pair, or `""` when the pattern never
matches. -/
def tagF (text tag : String) : String :=
  match tagScan tag.data text.data with
  | some inner => String.mk (pyStrip inner)
  | none => ""

/-- Model of `re.sub(r"<[^>]+>", "", ·)` scanned with fuel (one unit per consumed
character; called with fuel = length, which suffices since every step
consumes at least one character). -/
def stripTagsAux : Nat → List Char → List Char
  | 0, cs => cs
  | _ + 1, [] => []
  | fuel + 1, c :: cs =>
    if c = '<' then
      let attrs := cs.takeWhile (fun d => d != '>')
      if attrs.length = 0 then c :: stripTagsAux fuel cs
      else
        match cs.drop attrs.length with
        | _ :: rest => stripTagsAux fuel rest
        | [] => c :: stripTagsAux fuel cs
    else c :: stripTagsAux fuel cs

/-- Body of `strip_tags` before the final `.strip()`. -/
def stripTagsCore (cs : List Char) : List Char :=
  stripTagsAux cs.length cs

/-- The literal `class="anchor-link"` of `strip_anchor`. -/
def anchorLinkLit : List Char :=
  "class=\x22anchor-link\x22".data

/-- Model of `re.sub(r'<a[^>]*class="anchor-link"[^>]*>.*?</a>', "", ·)` (DOTALL,
IGNORECASE): at each position, an `<a` whose attribute span (the non-`>`
run before the first `>`) contains the marker literal, followed by the
shortest inner text up to `</a>`, is removed entirely. -/
def stripAnchorAux : Nat → List Char → List Char
  | 0, cs => cs
  | _ + 1, [] => []
  | fuel + 1, c :: cs =>
    let s := c :: cs
    let matchLen : Option Nat :=
      if isPrefixCI ['<', 'a'] s then
        let attrs := (s.drop 2).takeWhile (fun d => d != '>')
        if containsCI anchorLinkLit attrs then
          match s.drop (2 + attrs.length) with
          | _ :: b =>
            match findSubCI ['<', '/', 'a', '>'] b with
            | some k => some (2 + attrs.length + 1 + k + 4)
            | none => none
          | [] => none
        else none
      else none
    match matchLen with
    | some len => stripAnchorAux fuel (s.drop len)
    | none => c :: stripAnchorAux fuel cs

/-- Body of `strip_anchor` before the final `.strip()`. -/
def stripAnchorCore (cs : List Char) : List Char :=
  stripAnchorAux cs.length cs

/-- Model of `strip_anchor` of `_add_heading_ids`: remove upstream anchor-link
decorations, then strip whitespace. -/
def strip_anchor (s : List Char) : List Char :=
  pyStrip (stripAnchorCore s)

/-- Model of `strip_tags` of `_add_heading_ids`: remove all tags, then strip. -/
def strip_tags (s : List Char) : List Char :=
  pyStrip (stripTagsCore s)

/-- Model of `inner_clean` of `_add_heading_ids`: the heading's raw inner text,
stripped, with anchor-link decorations removed. -/
def innerCleanOf (inner : String) : String :=
  String.mk (strip_anchor (pyStrip inner.data))

/-- Model of `display_text` of `_add_heading_ids`. -/
def displayOf (inner : String) : String :=
  String.mk (strip_tags (innerCleanOf inner).data)

/-- Model of `re.sub(r'\s+id="[^"]*"', "", attrs, flags=re.IGNORECASE)` (line 71):
drop any whitespace-preceded `id="..."` attribute. -/
def removeIdAttrAux : Nat → List Char → List Char
  | 0, cs => cs
  | _ + 1, [] => []
  | fuel + 1, c :: cs =>
    if isWs c then
      let ws := (c :: cs).takeWhile isWs
      let rest := (c :: cs).drop ws.length
      if isPrefixCI ['i', 'd', '=', '\x22'] rest then
        let v := (rest.drop 4).takeWhile (fun d => d != '\x22')
        match (rest.drop 4).drop v.length with
        | _ :: r => removeIdAttrAux fuel r
        | [] => c :: removeIdAttrAux fuel cs
      else c :: removeIdAttrAux fuel cs
    else c :: removeIdAttrAux fuel cs

/-- The `id` attribute removal applied to a heading's attribute text. -/
def removeIdAttr (attrs : String) : String :=
  String.mk (removeIdAttrAux attrs.data.length attrs.data)

/-- Model of `html_path.stem.replace("_", " ").title()` (line 95): Python `title()`
upper-cases a letter that follows a non-letter and lower-cases the rest. -/
def titleAux (prevCased : Bool) : List Char → List Char
  | [] => []
  | c :: cs =>
    if c.isAlpha then
      (if prevCased then asciiLower c else asciiUpper c) :: titleAux true cs
    else c :: titleAux false cs

/-- Fallback section title derived from a file stem. -/
def humanize (stem : String) : String :=
  String.mk (titleAux false (stem.data.map (fun c => if c = '_' then ' ' else c)))

/-- One token of a tokenized body fragment.  A `heading` is one match of the
source's heading regex `<h([1-4])([^>]*)>(.*?)</h\1>`; `srcRef` is one match
of `src="([^\x22]+)"`; the navigation passes insert `backToToc` and
`pageBreak` elements; the composer wraps fragments in section elements. -/
inductive Item where
  | heading (level : Nat) (attrs inner : String)
  | text (s : String)
  | srcRef (val : String)
  | backToToc
  | pageBreak
  | sectionOpen (sid fname : String)
  | sectionClose
deriving DecidableEq, Repr

/-- The `(level, display_text, anchor)` records collected by
`_add_heading_ids`. -/
structure Heading where
  level : Nat
  text : String
  anchor : String
deriving DecidableEq, Repr

/-- Render one token back to the markup text the source manipulates. -/
def renderItem : Item → String
  | .heading l attrs inner =>
      "<h" ++ toString l ++ attrs ++ ">" ++ inner ++ "</h" ++ toString l ++ ">"
  | .text s => s
  | .srcRef v => "src=\x22" ++ v ++ "\x22"
  | .backToToc =>
      "<div class=\x22back-to-toc\x22><a href=\x22#toc\x22>Back to TOC</a></div>\n"
  | .pageBreak => "<div class=\x22page-break\x22></div>\n"
  | .sectionOpen sid fname =>
      "<section id=\x22" ++ sid ++ "\x22 class=\x22nb-section\x22 data-source=\x22" ++
        fname ++ "\x22>\n"
  | .sectionClose => "\n</section>"

/-- Render a token list to one markup string. -/
def renderItems (items : List Item) : String :=
  String.join (items.map renderItem)

/-- The anchor id of line 70 of `build_html.py`: `"{prefix}-{slug}"` when the
slug is non-empty, else `"{prefix}-h{level}-{len(headings)+1}"` where
`priorCount` is the number of headings already processed in this fragment. -/
def mkAnchor (pre : String) (level priorCount : Nat) (display : String) : String :=
  if slugOf display ≠ "" then pre ++ "-" ++ slugOf display
  else pre ++ "-h" ++ toString level ++ "-" ++ toString (priorCount + 1)

/-- The recursion of `_add_heading_ids`: `hs` is the accumulated heading
list (the source's `headings`), whose length gives the empty-slug ordinal. -/
def addHeadingIdsAux (pre : String) (hs : List Heading) :
    List Item → List Item × List Heading
  | [] => ([], hs)
  | .heading l attrs inner :: rest =>
    let clean := innerCleanOf inner
    let display := displayOf inner
    let anchor := mkAnchor pre l hs.length display
    let attrs' := removeIdAttr attrs ++ " id=\x22" ++ anchor ++ "\x22"
    let res := addHeadingIdsAux pre (hs ++ [⟨l, display, anchor⟩]) rest
    (.heading l attrs' clean :: res.1, res.2)
  | it :: rest =>
    let res := addHeadingIdsAux pre hs rest
    (it :: res.1, res.2)

/-- Model of `_add_heading_ids(body, prefix)` (lines 49-76): the rewritten body and
the ordered heading records. -/
def _add_heading_ids (pre : String) (items : List Item) :
    List Item × List Heading :=
  addHeadingIdsAux pre [] items

/-- The `add_back_link` rewrite (lines 110-130): before every heading whose
inner text matches the section-marker word, insert a back-to-TOC element,
preceded by a page break exactly when an earlier matching heading was
already seen in this run (`flag` is the source's `part_break_inserted`). -/
def addBackLinks (flag : Bool) : List Item → List Item × Bool
  | [] => ([], flag)
  | .heading l attrs inner :: rest =>
    if hasPartWord inner then
      let res := addBackLinks true rest
      ((if flag then [Item.pageBreak] else []) ++
        .backToToc :: .heading l attrs inner :: res.1, res.2)
    else
      let res := addBackLinks flag rest
      (.heading l attrs inner :: res.1, res.2)
  | it :: rest =>
    let res := addBackLinks flag rest
    (it :: res.1, res.2)

/-- Absolute filesystem paths, as their component lists below the root. -/
abbrev PathC := List String

/-- Prefix test on the character lists of two strings. -/
def startsWithS (pat s : String) : Bool :=
  pat.data.isPrefixOf s.data

/-- Split a character list at `/` separators. -/
def splitSlashAux : List Char → List Char → List (List Char)
  | [], acc => [acc.reverse]
  | '/' :: rest, acc => acc.reverse :: splitSlashAux rest []
  | c :: rest, acc => splitSlashAux rest (c :: acc)

/-- Model of `Path(s)` component split: `/` separators, dropping empty components and
`.` components. -/
def splitSrc (s : String) : List String :=
  ((splitSlashAux s.data []).map String.mk).filter (fun p => p != "" && p != ".")

/-- Model of `.resolve()` without symlinks: collapse `..` components lexically (at
the filesystem root, `..` stays at the root). -/
def resolveDots (ps : List String) : PathC :=
  ps.foldl (fun acc p => if p = ".." then acc.dropLast else acc ++ [p]) []

/-- Model of `(base_dir / src).resolve()`: an absolute `src` replaces the base. -/
def resolvePath (base : PathC) (src : String) : PathC :=
  if startsWithS "/" src then resolveDots (splitSrc src)
  else resolveDots (base ++ splitSrc src)

/-- Model of `re.match(r"^(?:[a-z]+:)?//", src)`: an optional run of lowercase
letters and a colon, then two slashes, at the start of the value. -/
def schemeSlashMatch (s : String) : Bool :=
  let cs := s.data
  let run := cs.takeWhile isLowerAlpha
  (match cs with
   | '/' :: '/' :: _ => true
   | _ => false)
  || (!run.isEmpty &&
      (match cs.drop run.length with
       | ':' :: '/' :: '/' :: _ => true
       | _ => false))

/-- Model of `path.relative_to(root)`: defined exactly when `root` is a component
prefix of `path`. -/
def relTo (p root : PathC) : Option PathC :=
  if root.isPrefixOf p then some (p.drop root.length) else none

/-- Model of `rel.as_posix()` (an empty relative path prints as `.`). -/
def relPosix (rel : PathC) : String :=
  match rel with
  | [] => "."
  | [p] => p
  | p :: rest => p ++ "/" ++ relPosix rest

/-- The per-value body of `_rewrite_src.repl` (lines 35-44): pass through
scheme-slash values, `data:` URIs and `#` fragments; otherwise resolve
against the fragment's directory and rewrite to a root-relative posix path
when inside the root, else keep the value unchanged. -/
def rewriteSrcValue (baseDir rootDir : PathC) (src : String) : String :=
  if schemeSlashMatch src || startsWithS "data:" src || startsWithS "#" src then src
  else
    match relTo (resolvePath baseDir src) rootDir with
    | none => src
    | some rel => relPosix rel

/-- Model of `_rewrite_src` over a tokenized body: rewrite every `src="..."`
reference, leave all other tokens untouched. -/
def rewriteSrcItems (baseDir rootDir : PathC) (items : List Item) : List Item :=
  items.map fun it =>
    match it with
    | .srcRef v => .srcRef (rewriteSrcValue baseDir rootDir v)
    | other => other

/-- One line of the generated table of contents (`toc_items`). -/
inductive TocLine where
  | top (sid title : String)
  | subOpen
  | subEntry (level : Nat) (text anchor : String)
  | subClose
  | closeLi
deriving DecidableEq, Repr

/-- Render a TOC line to the markup emitted at lines 97-108. -/
def renderTocLine : TocLine → String
  | .top sid title =>
      "<li class=\x22toc-section\x22><a href=\x22#" ++ sid ++ "\x22>" ++ title ++ "</a>"
  | .subOpen => "<ul class=\x22toc-sub\x22>"
  | .subEntry l text anchor =>
      "<li class=\x22toc-h" ++ toString l ++ "\x22><a href=\x22#" ++ anchor ++ "\x22>" ++
        text ++ "</a></li>"
  | .subClose => "</ul>"
  | .closeLi => "</li>"

/-- The per-fragment data consumed by the TOC builder. -/
structure Frag where
  sectionId : String
  title : String
  headings : List Heading
deriving DecidableEq, Repr

/-- Model of `part_links` (lines 99-103): one nested entry per heading whose display
text matches the section-marker word, in document order. -/
def partLinksOf (hs : List Heading) : List TocLine :=
  hs.filterMap fun h =>
    if hasPartWord h.text then some (.subEntry h.level h.text h.anchor) else none

/-- The TOC lines contributed by one fragment; the nested block is built
only when `isFirst` holds (the source's `if idx == 0`), and only when at
least one heading matches. -/
def tocEntriesFor (isFirst : Bool) (f : Frag) : List TocLine :=
  [.top f.sectionId f.title] ++
    (if isFirst then
      (let links := partLinksOf f.headings
       if links.isEmpty then [] else .subOpen :: (links ++ [.subClose]))
     else []) ++ [.closeLi]

/-- Model of `toc_items` accumulated over the enumerated fragment list. -/
def tocItemsOf (frags : List Frag) : List TocLine :=
  frags.enum.flatMap fun p => tocEntriesFor (p.1 = 0) p.2

/-- One input document after fragment extraction: stem and file name of its
path, extracted head content, originating directory, tokenized body. -/
structure PDoc where
  stem : String
  fname : String
  headContent : String
  baseDir : PathC
  body : List Item
deriving DecidableEq, Repr

/-- The combined document: first document's head content, TOC lines, and
the concatenated section tokens. -/
structure Combined where
  headContent : String
  toc : List TocLine
  bodyItems : List Item
deriving DecidableEq, Repr

/-- The per-document work of the loop at lines 89-135: rewrite asset paths,
assign heading anchors, build the fragment's TOC data, inject back-to-TOC
links (threading `part_break_inserted`), and wrap the body in its section
element. -/
def processDoc (rootDir : PathC) (flag : Bool) (d : PDoc) :
    Frag × List Item × Bool :=
  let body1 := rewriteSrcItems d.baseDir rootDir d.body
  let sid := "section-" ++ d.stem
  let ids := _add_heading_ids sid body1
  let title :=
    match ids.2 with
    | h :: _ => h.text
    | [] => humanize d.stem
  let bl := addBackLinks flag ids.1
  (⟨sid, title, ids.2⟩, (.sectionOpen sid d.fname) :: bl.1 ++ [.sectionClose], bl.2)

/-- The document loop, threading `part_break_inserted` across documents. -/
def processDocs (rootDir : PathC) (flag : Bool) :
    List PDoc → List Frag × List (List Item) × Bool
  | [] => ([], [], flag)
  | d :: rest =>
    let pd := processDoc rootDir flag d
    let pr := processDocs rootDir pd.2.2 rest
    (pd.1 :: pr.1, pd.2.1 :: pr.2.1, pr.2.2)

/-- Model of `"\n".join(sections)`: the composer concatenates the wrapped sections
with a newline separator and nothing else between them. -/
def joinSecs : List (List Item) → List Item
  | [] => []
  | [s] => s
  | s :: rest => s ++ .text "\n" :: joinSecs rest

/-- Model of `build_combined_html` (lines 79-238) over pre-extracted documents: an
empty input list is a `ValueError`; otherwise head content is taken from
the first document and the TOC and sections are assembled in input order. -/
def build_combined_html (rootDir : PathC) (docs : List PDoc) :
    Except String Combined :=
  match docs with
  | [] => .error "No HTML files provided for combination."
  | d0 :: _ =>
    let (frags, secs, _) := processDocs rootDir false docs
    .ok ⟨d0.headContent, tocItemsOf frags, joinSecs secs⟩

/-! Observation helpers used to state the verified properties. -/

/-- Is a TOC line a nested (sub) entry? -/
def isSubEntry : TocLine → Bool
  | .subEntry _ _ _ => true
  | _ => false

/-- The TOC of a build result (empty on error). -/
def tocOfResult : Except String Combined → List TocLine
  | .ok c => c.toc
  | .error _ => []

/-- The body tokens of a build result (empty on error). -/
def bodyOfResult : Except String Combined → List Item
  | .ok c => c.bodyItems
  | .error _ => []

/-- Is a token a section-open element? -/
def isSecOpenItem : Item → Bool
  | .sectionOpen _ _ => true
  | _ => false

/-- Is a token a page-break element? -/
def isPBItem : Item → Bool
  | .pageBreak => true
  | _ => false

/-- Is a token a back-to-TOC element? -/
def isBttItem : Item → Bool
  | .backToToc => true
  | _ => false

/-- Is a token a heading whose inner text matches the section-marker
word? -/
def isMatchedHeading : Item → Bool
  | .heading _ _ inner => hasPartWord inner
  | _ => false

/-- Number of section-open elements in a token list. -/
def countSections (items : List Item) : Nat :=
  items.countP isSecOpenItem

/-- Number of page-break elements in a token list. -/
def countPB (items : List Item) : Nat :=
  items.countP isPBItem

/-- Number of back-to-TOC elements in a token list. -/
def countBtt (items : List Item) : Nat :=
  items.countP isBttItem

/-- Number of headings whose inner text matches the section-marker word. -/
def matchedHeadingCount (items : List Item) : Nat :=
  items.countP isMatchedHeading

/-- Every page-break element is immediately followed by a back-to-TOC
element (in particular no page break ends the list). -/
def pbFollowed : List Item → Bool
  | [] => true
  | .pageBreak :: rest =>
    (match rest with
     | .backToToc :: _ => true
     | _ => false) && pbFollowed rest
  | _ :: rest => pbFollowed rest

/-- The `(level, raw inner text)` of the heading tokens of a body, in
document order. -/
def headingsOf (items : List Item) : List (Nat × String) :=
  items.filterMap fun it =>
    match it with
    | .heading l _ inner => some (l, inner)
    | _ => none

/-- Modelled from the amended anchor rule: the heading records with the
empty-slug ordinal equal to the 1-based position among all headings of the
fragment (`k` is the 0-based position of the next heading). -/
def idxHeadings (pre : String) (k : Nat) : List (Nat × String) → List Heading
  | [] => []
  | (l, inner) :: rest =>
    ⟨l, displayOf inner, mkAnchor pre l k (displayOf inner)⟩ ::
      idxHeadings pre (k + 1) rest

/-- The anchors produced for one fragment with the given stem. -/
def fragAnchors (d : String × List Item) : List String :=
  ((_add_heading_ids ("section-" ++ d.1) d.2).2).map Heading.anchor

/-- The slugs of the headings of one fragment body. -/
def fragSlugs (items : List Item) : List String :=
  (headingsOf items).map fun p => slugOf (displayOf p.2)

/-- No string in the list is a prefix of a later one or vice versa. -/
def stemsOk : List String → Bool
  | [] => true
  | s :: rest =>
    rest.all (fun t => !(s.data.isPrefixOf t.data) && !(t.data.isPrefixOf s.data))
      && stemsOk rest

/-- Boolean duplicate-freedom. -/
def nodupB : List String → Bool
  | [] => true
  | s :: rest => rest.all (fun t => t != s) && nodupB rest

/-- All slugs of the fragment are non-empty and pairwise distinct. -/
def slugsOk (items : List Item) : Bool :=
  (fragSlugs items).all (fun s => s != "") && nodupB (fragSlugs items)

/-- The number of section-marker headings of one document after its body
went through the asset and anchor passes (the headings `add_back_link`
sees). -/
def mpartOf (rootDir : PathC) (d : PDoc) : Nat :=
  matchedHeadingCount
    (_add_heading_ids ("section-" ++ d.stem)
      (rewriteSrcItems d.baseDir rootDir d.body)).1

/-- Total number of section-marker headings across all documents. -/
def totalMatched (rootDir : PathC) (docs : List PDoc) : Nat :=
  (docs.map (mpartOf rootDir)).sum

end BuildHtml

namespace TranslateHtml

/-- Model of `text.rfind(" ", 0, e)` relative to a chunk start: the highest index
below `e` holding a space, if any. -/
def rfindSpaceAux : List Char → Nat → Option Nat → Option Nat
  | [], _, best => best
  | c :: rest, i, best =>
    rfindSpaceAux rest (i + 1) (if c = ' ' then some i else best)

/-- Model of `text.rfind(" ", start, end)` with indices relative to `start`. -/
def rfindSpace (cs : List Char) (e : Nat) : Option Nat :=
  rfindSpaceAux (cs.take e) 0 none

/-- The cut point of one iteration of the loop of `chunk_text`: 4000
characters (or the rest), backed up to the last space when that space lies
more than 200 characters in. -/
def chunkEnd (cs : List Char) : Nat :=
  let e := min 4000 cs.length
  if e < cs.length then
    match rfindSpace cs e with
    | some sp => if sp > 200 then sp else e
    | none => e
  else e

/-- The loop of `chunk_text` (lines 40-49 of
`translate_html_to_chinese.py`) with `max_len = 4000`.  Fuel is one unit
per emitted chunk; each chunk is non-empty, so the initial length is
enough fuel. -/
def chunkLoopAux : Nat → List Char → List (List Char)
  | 0, _ => []
  | fuel + 1, cs =>
    if cs.isEmpty then []
    else cs.take (chunkEnd cs) :: chunkLoopAux fuel (cs.drop (chunkEnd cs))

/-- Model of `chunk_text(text)` (lines 37-50): a short text is one chunk; a long
text is cut by the loop. -/
def chunk_text (text : String) : List String :=
  if text.data.length ≤ 4000 then [text]
  else (chunkLoopAux text.data.length text.data).map String.mk

/-- The per-chunk loop of `translate_text` (lines 53-65): a translator call
that raises or returns no result (`none`) leaves the original chunk. -/
def translatedChunks (tr : String → Option String) (chunks : List String) :
    List String :=
  chunks.map fun c => (tr c).getD c

/-- Model of `"".join(...)`. -/
def concatS : List String → String
  | [] => ""
  | s :: rest => s ++ concatS rest

/-- Model of `translate_text(text, translator)`: translate each chunk, keeping the
original text of any failed chunk, and join the results. -/
def translate_text (tr : String → Option String) (text : String) : String :=
  concatS (translatedChunks tr (chunk_text text))

end TranslateHtml

namespace BuildHtml

/-! Case-mapping lemmas for the slug computation. -/

theorem isSlugChar_asciiLower (c : Char) :
    isSlugChar (asciiLower c) = isSlugChar c := by
  unfold asciiLower
  split <;> rfl

theorem asciiLower_beq_dash (c : Char) :
    (asciiLower c == '-') = (c == '-') := by
  unfold asciiLower
  split <;> rfl

theorem asciiLower_dash : asciiLower '-' = '-' := rfl

theorem subRunsAux_map (b : Bool) (cs : List Char) :
    subRunsAux b (cs.map asciiLower) = (subRunsAux b cs).map asciiLower := by
  induction cs generalizing b with
  | nil => rfl
  | cons c cs ih =>
    simp only [List.map_cons, subRunsAux, isSlugChar_asciiLower]
    by_cases h : isSlugChar c
    · simp [h, ih]
    · by_cases hb : b <;> simp [h, hb, ih, asciiLower_dash]

theorem trimDashes_map (cs : List Char) :
    trimDashes (cs.map asciiLower) = (trimDashes cs).map asciiLower := by
  unfold trimDashes
  have hp : ((fun c : Char => c == '-') ∘ asciiLower) = (fun c : Char => c == '-') := by
    funext c
    exact asciiLower_beq_dash c
  rw [List.dropWhile_map, hp, ← List.map_reverse, List.dropWhile_map, hp,
    ← List.map_reverse]

theorem slugOf_eq_slugSpecOrder (t : String) : slugOf t = slugSpecOrder t := by
  unfold slugOf slugSpecOrder subRuns
  rw [subRunsAux_map, trimDashes_map]

/-- C7: the slug is a deterministic function of the display text, equal to
the spec's lower-then-substitute-then-trim computation, and the heading
text "Part 2: Setup" yields the slug "part-2-setup". -/
theorem c7_slug_determinism :
    (∀ t : String, slugOf t = slugSpecOrder t) ∧
    slugOf "Part 2: Setup" = "part-2-setup" ∧
    (∀ t1 t2 : String, t1 = t2 → slugOf t1 = slugOf t2) :=
  ⟨slugOf_eq_slugSpecOrder, by decide, fun _ _ h => by rw [h]⟩

/-- Witness for C7 at concrete inputs. -/
theorem c7_slug_determinism_witness :
    slugOf "Part 2: Setup" = "part-2-setup" ∧
    slugOf "Introduction" = slugOf "Introduction" :=
  ⟨c7_slug_determinism.2.1, c7_slug_determinism.2.2 "Introduction" "Introduction" rfl⟩

/-- C10: `build_combined_html` on an empty input list is the `ValueError`
of line 81, before any input is read or any output produced. -/
theorem c10_empty_input_value_error :
    ∀ rootDir : PathC, build_combined_html rootDir [] =
      Except.error "No HTML files provided for combination." :=
  fun _ => rfl

/-- C1 counterexample: three documents with level-1 headings "Part 1",
"Part 1", "Part 2" produce exactly ONE nested TOC entry (the first
document's), not three — nested entries are built only for `idx == 0`. -/
theorem c1_counterexample :
    (tocOfResult (build_combined_html ["root"]
      [⟨"a", "a.html", "", ["root"], [Item.heading 1 "" "Part 1"]⟩,
       ⟨"b", "b.html", "", ["root"], [Item.heading 1 "" "Part 1"]⟩,
       ⟨"c", "c.html", "", ["root"], [Item.heading 1 "" "Part 2"]⟩])).filter isSubEntry =
      [TocLine.subEntry 1 "Part 1" "section-a-part-1"] := by decide

/-- C2 counterexample: the section back-to-TOC rewrite has no presence
check; applying it twice to a document with one "Part 1" heading renders
a second back-to-TOC element, so the output is not byte-identical. -/
theorem c2_counterexample :
    renderItems (addBackLinks false
        (addBackLinks false [Item.heading 1 "" "Part 1"]).1).1 ≠
      renderItems (addBackLinks false [Item.heading 1 "" "Part 1"]).1 := by decide

/-- C3 counterexample: two headings with the same display text "Intro" in
one fragment receive the same anchor id, so anchors are not unique. -/
theorem c3_counterexample :
    fragAnchors ("a", [Item.heading 1 "" "Intro", Item.heading 1 "" "Intro"]) =
      ["section-a-intro", "section-a-intro"] ∧
    ¬ (fragAnchors ("a",
        [Item.heading 1 "" "Intro", Item.heading 1 "" "Intro"])).Nodup :=
  ⟨by decide, by decide⟩

/-- C4 counterexample: after one non-empty-slug heading, an empty-slug
heading at level 2 gets ordinal 2 (`len(headings)+1` counts ALL prior
headings), not ordinal 1 as the claim's empty-slug-only count demands. -/
theorem c4_counterexample :
    ((_add_heading_ids "p"
        [Item.heading 1 "" "Hello", Item.heading 2 "" "!!!"]).2.map Heading.anchor) =
      ["p-hello", "p-h2-2"] ∧ ("p-h2-2" : String) ≠ "p-h2-1" :=
  ⟨by decide, by decide⟩

/-- C5 counterexample: two sections with no section-marker headings are
composed with no page-break boundary anywhere between them. -/
theorem c5_counterexample :
    countPB (bodyOfResult (build_combined_html ["root"]
      [⟨"x", "x.html", "", ["root"], [Item.heading 1 "" "Alpha"]⟩,
       ⟨"y", "y.html", "", ["root"], [Item.heading 1 "" "Beta"]⟩])) = 0 ∧
    countSections (bodyOfResult (build_combined_html ["root"]
      [⟨"x", "x.html", "", ["root"], [Item.heading 1 "" "Alpha"]⟩,
       ⟨"y", "y.html", "", ["root"], [Item.heading 1 "" "Beta"]⟩])) = 2 :=
  ⟨by decide, by decide⟩

/-- C6 counterexample: `mailto:x` is an absolute URL (it has a scheme) but
does not match `^(?:[a-z]+:)?//`, so it is resolved as a relative path and
rewritten, contradicting the pass-through claim. -/
theorem c6_counterexample :
    rewriteSrcValue ["root", "sub"] ["root"] "mailto:x" = "sub/mailto:x" ∧
    ("sub/mailto:x" : String) ≠ "mailto:x" :=
  ⟨by decide, by decide⟩

end BuildHtml

namespace BuildHtml

/-! C4: characterization of the anchor ordinal. -/

theorem addHeadingIdsAux_records (pre : String) (items : List Item) :
    ∀ hs : List Heading, (addHeadingIdsAux pre hs items).2 =
      hs ++ idxHeadings pre hs.length (headingsOf items) := by
  induction items with
  | nil => intro hs; simp [addHeadingIdsAux, idxHeadings, headingsOf]
  | cons it rest ih =>
    intro hs
    cases it <;>
      (simp only [addHeadingIdsAux]; rw [ih];
       simp [headingsOf, idxHeadings, List.filterMap_cons, List.append_assoc])

/-- C4 amended: the Heading Anchor Assigner emits, for the k-th heading of
the fragment (0-based, counting ALL headings), the anchor
`"{prefix}-{slug}"` when the slug is non-empty and otherwise
`"{prefix}-h{level}-{k+1}"` — the ordinal is the 1-based position among all
headings processed so far in the fragment, not among empty-slug headings
only (see `mkAnchor` and `idxHeadings`). -/
theorem c4_anchor_ordinal_all_headings (pre : String) (items : List Item) :
    (_add_heading_ids pre items).2 = idxHeadings pre 0 (headingsOf items) := by
  have h := addHeadingIdsAux_records pre items []
  simpa [_add_heading_ids] using h

/-! C2: the back-to-TOC rewrite is not idempotent. -/

theorem countBtt_addBackLinks (items : List Item) :
    ∀ flag, countBtt (addBackLinks flag items).1 =
      countBtt items + matchedHeadingCount items := by
  unfold countBtt matchedHeadingCount
  induction items with
  | nil => intro flag; simp [addBackLinks]
  | cons it rest ih =>
    intro flag
    cases it with
    | heading l attrs inner =>
      by_cases h : hasPartWord inner
      · by_cases hf : flag <;>
          (simp [addBackLinks, h, hf, List.countP_cons, isBttItem, isMatchedHeading, isPBItem, ih]; omega)
      · simp [addBackLinks, h, List.countP_cons, isBttItem, isMatchedHeading, isPBItem, ih]
    | text s => simp [addBackLinks, List.countP_cons, isBttItem, isMatchedHeading, isPBItem, ih]
    | srcRef v => simp [addBackLinks, List.countP_cons, isBttItem, isMatchedHeading, isPBItem, ih]
    | backToToc => simp [addBackLinks, List.countP_cons, isBttItem, isMatchedHeading, isPBItem, ih]; omega
    | pageBreak => simp [addBackLinks, List.countP_cons, isBttItem, isMatchedHeading, isPBItem, ih]
    | sectionOpen a b => simp [addBackLinks, List.countP_cons, isBttItem, isMatchedHeading, isPBItem, ih]
    | sectionClose => simp [addBackLinks, List.countP_cons, isBttItem, isMatchedHeading, isPBItem, ih]

theorem matched_addBackLinks (items : List Item) :
    ∀ flag, matchedHeadingCount (addBackLinks flag items).1 =
      matchedHeadingCount items := by
  unfold matchedHeadingCount
  induction items with
  | nil => intro flag; simp [addBackLinks]
  | cons it rest ih =>
    intro flag
    cases it with
    | heading l attrs inner =>
      by_cases h : hasPartWord inner
      · by_cases hf : flag <;>
          simp [addBackLinks, h, hf, List.countP_cons, isBttItem, isMatchedHeading, isPBItem, ih]
      · simp [addBackLinks, h, List.countP_cons, isBttItem, isMatchedHeading, isPBItem, ih]
    | text s => simp [addBackLinks, List.countP_cons, isBttItem, isMatchedHeading, isPBItem, ih]
    | srcRef v => simp [addBackLinks, List.countP_cons, isBttItem, isMatchedHeading, isPBItem, ih]
    | backToToc => simp [addBackLinks, List.countP_cons, isBttItem, isMatchedHeading, isPBItem, ih]
    | pageBreak => simp [addBackLinks, List.countP_cons, isBttItem, isMatchedHeading, isPBItem, ih]
    | sectionOpen a b => simp [addBackLinks, List.countP_cons, isBttItem, isMatchedHeading, isPBItem, ih]
    | sectionClose => simp [addBackLinks, List.countP_cons, isBttItem, isMatchedHeading, isPBItem, ih]

/-- C2 amended: the section back-to-TOC rewrite performs no presence check,
so it is NOT idempotent: on any document with at least one section-marker
heading, a second application inserts further back-to-TOC elements and the
output differs from the first application's. -/
theorem c2_back_link_not_idempotent (items : List Item)
    (h : 1 ≤ matchedHeadingCount items) :
    (addBackLinks false (addBackLinks false items).1).1 ≠
      (addBackLinks false items).1 := by
  intro heq
  have h1 : countBtt (addBackLinks false (addBackLinks false items).1).1 =
      countBtt (addBackLinks false items).1 := by rw [heq]
  rw [countBtt_addBackLinks, matched_addBackLinks, countBtt_addBackLinks] at h1
  omega

/-- Witness for C2 amended at a concrete one-heading document. -/
theorem c2_back_link_not_idempotent_witness :
    1 ≤ matchedHeadingCount [Item.heading 1 "" "Part 1"] ∧
    (addBackLinks false
        (addBackLinks false [Item.heading 1 "" "Part 1"]).1).1 ≠
      (addBackLinks false [Item.heading 1 "" "Part 1"]).1 :=
  ⟨by decide, c2_back_link_not_idempotent [Item.heading 1 "" "Part 1"] (by decide)⟩

end BuildHtml

namespace TranslateHtml

/-! C9: per-chunk translation failure is non-fatal. -/

theorem mkData (s : String) : String.mk s.data = s := by
  cases s
  rfl

theorem chunkEnd_pos (cs : List Char) (h : cs ≠ []) : 1 ≤ chunkEnd cs := by
  have hl : 1 ≤ cs.length := List.length_pos.mpr h
  unfold chunkEnd
  simp only []
  split
  · split
    · split <;> omega
    · omega
  · omega

theorem chunkLoopAux_flatten (fuel : Nat) :
    ∀ cs : List Char, cs.length ≤ fuel → (chunkLoopAux fuel cs).flatten = cs := by
  induction fuel with
  | zero =>
    intro cs h
    have : cs = [] := List.length_eq_zero.mp (Nat.le_zero.mp h)
    simp [this, chunkLoopAux]
  | succ fuel ih =>
    intro cs h
    by_cases hcs : cs.isEmpty
    · simp [chunkLoopAux, hcs]
      exact List.isEmpty_iff.mp hcs
    · have hne : cs ≠ [] := by simpa [List.isEmpty_iff] using hcs
      have hpos := chunkEnd_pos cs hne
      have hlen : (cs.drop (chunkEnd cs)).length ≤ fuel := by
        simp only [List.length_drop]
        omega
      simp [chunkLoopAux, hcs, ih _ hlen]

theorem concatS_map_mk (L : List (List Char)) :
    concatS (L.map String.mk) = String.mk L.flatten := by
  induction L with
  | nil => rfl
  | cons a rest ih =>
    simp only [List.map_cons, concatS, ih, List.flatten_cons]
    rfl

/-- The chunks of `chunk_text` always concatenate back to the input text:
chunking never loses or duplicates characters. -/
theorem chunk_text_concat (text : String) : concatS (chunk_text text) = text := by
  unfold chunk_text
  split
  · show text ++ "" = text
    simp
  · rw [concatS_map_mk,
      chunkLoopAux_flatten text.data.length text.data (Nat.le_refl _), mkData]

/-- C9: translation failure is non-fatal per chunk — the output has one
chunk per input chunk; a chunk on which the translator fails (raises or
returns `None`) is passed through unchanged; the result for one chunk
depends only on the translator's behaviour on that chunk; and with a
translator that fails on every chunk, `translate_text` returns the input
text unchanged (never dropped or emptied). -/
theorem c9_translation_failure_non_fatal :
    (∀ tr chunks, (translatedChunks tr chunks).length = chunks.length) ∧
    (∀ (tr : String → Option String) (chunks : List String) (i : Nat),
      (∃ c, chunks[i]? = some c ∧ tr c = none) →
        (translatedChunks tr chunks)[i]? = chunks[i]?) ∧
    (∀ (tr1 tr2 : String → Option String) (chunks : List String) (i : Nat)
      (c : String), chunks[i]? = some c → tr1 c = tr2 c →
        (translatedChunks tr1 chunks)[i]? = (translatedChunks tr2 chunks)[i]?) ∧
    (∀ text, translate_text (fun _ => none) text = text) := by
  refine ⟨?_, ?_, ?_, ?_⟩
  · intro tr chunks
    simp [translatedChunks]
  · rintro tr chunks i ⟨c, hc, htr⟩
    simp [translatedChunks, List.getElem?_map, hc, htr]
  · intro tr1 tr2 chunks i c hc htr
    simp [translatedChunks, List.getElem?_map, hc, htr]
  · intro text
    unfold translate_text
    have h : translatedChunks (fun _ => none) (chunk_text text) = chunk_text text := by
      simp [translatedChunks]
    rw [h, chunk_text_concat]

/-- Witness for C9 at a concrete failing translator and chunk. -/
theorem c9_translation_failure_non_fatal_witness :
    (translatedChunks (fun _ => none) ["hello"])[0]? =
      (["hello"] : List String)[0]? ∧
    translate_text (fun _ => none) "some document text" = "some document text" :=
  ⟨c9_translation_failure_non_fatal.2.1 (fun _ => none) ["hello"] 0
      ⟨"hello", rfl, rfl⟩,
   c9_translation_failure_non_fatal.2.2.2 "some document text"⟩

end TranslateHtml

namespace BuildHtml

/-! C1: nested TOC entries are emitted only for the first fragment. -/

theorem partLinksOf_filter (hs : List Heading) :
    (partLinksOf hs).filter isSubEntry = partLinksOf hs := by
  unfold partLinksOf
  induction hs with
  | nil => rfl
  | cons h rest ih =>
    by_cases hp : hasPartWord h.text <;>
      simp [List.filterMap_cons, hp, ih, isSubEntry, List.filter_cons]

theorem tocTail_shape (gs : List Frag) :
    ∀ n : Nat, (List.enumFrom (n + 1) gs).flatMap
        (fun p => tocEntriesFor (p.1 = 0) p.2) =
      gs.flatMap fun g => [TocLine.top g.sectionId g.title, TocLine.closeLi] := by
  induction gs with
  | nil => intro n; rfl
  | cons g rest ih =>
    intro n
    simp only [List.enumFrom, List.flatMap_cons]
    rw [ih (n + 1)]
    simp [tocEntriesFor]

theorem tocTail_filter (gs : List Frag) :
    ((gs.flatMap fun g => [TocLine.top g.sectionId g.title, TocLine.closeLi]).filter
      isSubEntry) = [] := by
  induction gs with
  | nil => rfl
  | cons g rest ih => simp [List.flatMap_cons, List.filter_append, ih, isSubEntry]

theorem tocTail_no_subOpen (gs : List Frag) :
    TocLine.subOpen ∉ gs.flatMap fun g =>
      [TocLine.top g.sectionId g.title, TocLine.closeLi] := by
  induction gs with
  | nil => simp
  | cons g rest ih => simp [List.flatMap_cons, ih]

theorem tocItemsOf_cons (f : Frag) (rest : List Frag) :
    tocItemsOf (f :: rest) = tocEntriesFor true f ++
      (rest.flatMap fun g => [TocLine.top g.sectionId g.title, TocLine.closeLi]) := by
  unfold tocItemsOf
  rw [List.enum]
  simp only [List.enumFrom, List.flatMap_cons]
  rw [tocTail_shape rest 0]
  simp

/-- C1 amended: the TOC Builder emits nested entries only for the FIRST
fragment — for any fragment list, the nested entries of the whole TOC are
exactly the first fragment's section-marker links, in document order
(fragments after the first contribute only their top-level entry), and no
nested list is opened when the first fragment has no matching heading. -/
theorem c1_toc_nested_first_fragment_only :
    (∀ (f : Frag) (rest : List Frag),
      (tocItemsOf (f :: rest)).filter isSubEntry = partLinksOf f.headings) ∧
    tocItemsOf [] = [] ∧
    (∀ (f : Frag) (rest : List Frag), partLinksOf f.headings = [] →
      TocLine.subOpen ∉ tocItemsOf (f :: rest)) := by
  refine ⟨?_, rfl, ?_⟩
  · intro f rest
    rw [tocItemsOf_cons, List.filter_append, tocTail_filter, List.append_nil]
    unfold tocEntriesFor
    by_cases hl : (partLinksOf f.headings).isEmpty
    · simp [hl, isSubEntry, List.filter_cons]
      exact List.isEmpty_iff.mp hl
    · simp [hl, isSubEntry, List.filter_cons, List.filter_append, partLinksOf_filter]
  · intro f rest hl
    rw [tocItemsOf_cons]
    intro hmem
    rcases List.mem_append.mp hmem with h1 | h2
    · unfold tocEntriesFor at h1
      simp [hl, List.isEmpty_iff] at h1
    · exact tocTail_no_subOpen rest h2

/-- Witness for C1 amended at concrete fragments. -/
theorem c1_toc_nested_first_fragment_only_witness :
    (tocItemsOf [⟨"section-a", "Part 1", [⟨1, "Part 1", "section-a-part-1"⟩]⟩,
        ⟨"section-b", "Part 1", [⟨1, "Part 1", "section-b-part-1"⟩]⟩]).filter
      isSubEntry =
      partLinksOf [⟨1, "Part 1", "section-a-part-1"⟩] ∧
    TocLine.subOpen ∉ tocItemsOf [⟨"section-x", "Alpha", []⟩] :=
  ⟨c1_toc_nested_first_fragment_only.1 ⟨"section-a", "Part 1",
      [⟨1, "Part 1", "section-a-part-1"⟩]⟩
      [⟨"section-b", "Part 1", [⟨1, "Part 1", "section-b-part-1"⟩]⟩],
   c1_toc_nested_first_fragment_only.2.2 ⟨"section-x", "Alpha", []⟩ [] rfl⟩

end BuildHtml

namespace BuildHtml

theorem countPB_addHeadingIdsAux (pre : String) (items : List Item) :
    ∀ hs, countPB (addHeadingIdsAux pre hs items).1 = countPB items := by
  unfold countPB
  induction items with
  | nil => intro hs; simp [addHeadingIdsAux]
  | cons it rest ih =>
    intro hs
    cases it <;> simp [addHeadingIdsAux, List.countP_cons, isPBItem, ih]

theorem countPB_rewriteSrcItems (b r : PathC) (items : List Item) :
    countPB (rewriteSrcItems b r items) = countPB items := by
  unfold countPB rewriteSrcItems
  induction items with
  | nil => rfl
  | cons it rest ih =>
    cases it <;> simp [List.countP_cons, isPBItem, ih]

theorem addBackLinks_flag_true (items : List Item) :
    (addBackLinks true items).2 = true := by
  induction items with
  | nil => rfl
  | cons it rest ih =>
    cases it with
    | heading l attrs inner =>
      by_cases h : hasPartWord inner <;> simp [addBackLinks, h, ih]
    | text s => simp [addBackLinks, ih]
    | srcRef v => simp [addBackLinks, ih]
    | backToToc => simp [addBackLinks, ih]
    | pageBreak => simp [addBackLinks, ih]
    | sectionOpen a b => simp [addBackLinks, ih]
    | sectionClose => simp [addBackLinks, ih]

theorem addBackLinks_flag_of_zero (items : List Item) :
    ∀ flag, matchedHeadingCount items = 0 → (addBackLinks flag items).2 = flag := by
  unfold matchedHeadingCount
  induction items with
  | nil => intro flag _; rfl
  | cons it rest ih =>
    intro flag h
    simp only [List.countP_cons] at h
    cases it with
    | heading l attrs inner =>
      by_cases hp : hasPartWord inner
      · simp [isMatchedHeading, hp] at h
      · simp only [isMatchedHeading, hp, Bool.false_eq_true, if_false] at h
        simp [addBackLinks, hp, ih flag (by omega)]
    | text s => simp only [isMatchedHeading, Bool.false_eq_true, if_false] at h; simp [addBackLinks, ih flag (by omega)]
    | srcRef v => simp only [isMatchedHeading, Bool.false_eq_true, if_false] at h; simp [addBackLinks, ih flag (by omega)]
    | backToToc => simp only [isMatchedHeading, Bool.false_eq_true, if_false] at h; simp [addBackLinks, ih flag (by omega)]
    | pageBreak => simp only [isMatchedHeading, Bool.false_eq_true, if_false] at h; simp [addBackLinks, ih flag (by omega)]
    | sectionOpen a b => simp only [isMatchedHeading, Bool.false_eq_true, if_false] at h; simp [addBackLinks, ih flag (by omega)]
    | sectionClose => simp only [isMatchedHeading, Bool.false_eq_true, if_false] at h; simp [addBackLinks, ih flag (by omega)]

theorem addBackLinks_flag_of_pos (items : List Item) :
    ∀ flag, 1 ≤ matchedHeadingCount items → (addBackLinks flag items).2 = true := by
  unfold matchedHeadingCount
  induction items with
  | nil => intro flag h; simp at h
  | cons it rest ih =>
    intro flag h
    simp only [List.countP_cons] at h
    cases it with
    | heading l attrs inner =>
      by_cases hp : hasPartWord inner
      · simp [addBackLinks, hp, addBackLinks_flag_true]
      · simp only [isMatchedHeading, hp, Bool.false_eq_true, if_false] at h
        simp [addBackLinks, hp, ih flag (by omega)]
    | text s => simp only [isMatchedHeading, Bool.false_eq_true, if_false] at h; simp [addBackLinks, ih flag (by omega)]
    | srcRef v => simp only [isMatchedHeading, Bool.false_eq_true, if_false] at h; simp [addBackLinks, ih flag (by omega)]
    | backToToc => simp only [isMatchedHeading, Bool.false_eq_true, if_false] at h; simp [addBackLinks, ih flag (by omega)]
    | pageBreak => simp only [isMatchedHeading, Bool.false_eq_true, if_false] at h; simp [addBackLinks, ih flag (by omega)]
    | sectionOpen a b => simp only [isMatchedHeading, Bool.false_eq_true, if_false] at h; simp [addBackLinks, ih flag (by omega)]
    | sectionClose => simp only [isMatchedHeading, Bool.false_eq_true, if_false] at h; simp [addBackLinks, ih flag (by omega)]

theorem countPB_addBackLinks (items : List Item) :
    ∀ flag, countPB (addBackLinks flag items).1 = countPB items +
      (if flag then matchedHeadingCount items else matchedHeadingCount items - 1) := by
  unfold countPB matchedHeadingCount
  induction items with
  | nil => intro flag; cases flag <;> simp [addBackLinks]
  | cons it rest ih =>
    intro flag
    cases it with
    | heading l attrs inner =>
      by_cases hp : hasPartWord inner
      · cases flag <;>
          (simp [addBackLinks, hp, List.countP_cons, isPBItem, isBttItem,
            isMatchedHeading, ih]; try omega)
      · cases flag <;>
          simp [addBackLinks, hp, List.countP_cons, isPBItem, isMatchedHeading, ih]
    | text s =>
      cases flag <;> simp [addBackLinks, List.countP_cons, isPBItem, isMatchedHeading, ih]
    | srcRef v =>
      cases flag <;> simp [addBackLinks, List.countP_cons, isPBItem, isMatchedHeading, ih]
    | backToToc =>
      cases flag <;> simp [addBackLinks, List.countP_cons, isPBItem, isMatchedHeading, ih]
    | pageBreak =>
      cases flag <;>
        (simp [addBackLinks, List.countP_cons, isPBItem, isMatchedHeading, ih]; try omega)
    | sectionOpen a b =>
      cases flag <;> simp [addBackLinks, List.countP_cons, isPBItem, isMatchedHeading, ih]
    | sectionClose =>
      cases flag <;> simp [addBackLinks, List.countP_cons, isPBItem, isMatchedHeading, ih]

end BuildHtml

namespace BuildHtml

theorem countPB_joinSecs (secs : List (List Item)) :
    countPB (joinSecs secs) = (secs.map countPB).sum := by
  induction secs with
  | nil => rfl
  | cons s rest ih =>
    cases rest with
    | nil => simp [joinSecs]
    | cons s2 r2 =>
      show countPB (s ++ Item.text "\n" :: joinSecs (s2 :: r2)) = _
      unfold countPB at ih ⊢
      rw [List.countP_append, List.countP_cons]
      simp [isPBItem, ih]

theorem matched_ids_eq_mpart (rootDir : PathC) (d : PDoc) :
    matchedHeadingCount (_add_heading_ids ("section-" ++ d.stem)
      (rewriteSrcItems d.baseDir rootDir d.body)).1 = mpartOf rootDir d := rfl

theorem countPB_add_heading_ids (pre : String) (items : List Item) :
    countPB (_add_heading_ids pre items).1 = countPB items :=
  countPB_addHeadingIdsAux pre items []

theorem countPB_wrap (sid fn : String) (l : List Item) :
    countPB (Item.sectionOpen sid fn :: l ++ [Item.sectionClose]) = countPB l := by
  unfold countPB
  simp [List.countP_cons, List.countP_append, isPBItem]

theorem countPB_processDoc (rootDir : PathC) (flag : Bool) (d : PDoc)
    (h0 : countPB d.body = 0) :
    countPB (processDoc rootDir flag d).2.1 =
      (if flag then mpartOf rootDir d else mpartOf rootDir d - 1) := by
  show countPB (Item.sectionOpen ("section-" ++ d.stem) d.fname ::
      (addBackLinks flag (_add_heading_ids ("section-" ++ d.stem)
        (rewriteSrcItems d.baseDir rootDir d.body)).1).1 ++ [Item.sectionClose]) = _
  rw [countPB_wrap, countPB_addBackLinks, countPB_add_heading_ids,
    countPB_rewriteSrcItems, h0, matched_ids_eq_mpart]
  simp

theorem processDoc_snd_flag (rootDir : PathC) (flag : Bool) (d : PDoc) :
    (processDoc rootDir flag d).2.2 =
      (addBackLinks flag (_add_heading_ids ("section-" ++ d.stem)
        (rewriteSrcItems d.baseDir rootDir d.body)).1).2 := rfl

theorem processDocs_countPB (rootDir : PathC) (docs : List PDoc) :
    ∀ flag, (∀ d ∈ docs, countPB d.body = 0) →
      (((processDocs rootDir flag docs).2.1).map countPB).sum =
        (if flag then totalMatched rootDir docs
         else totalMatched rootDir docs - 1) := by
  induction docs with
  | nil =>
    intro flag _
    cases flag <;> simp [processDocs, totalMatched]
  | cons d rest ih =>
    intro flag h
    have hd : countPB d.body = 0 := h d (List.mem_cons_self d rest)
    have hrest : ∀ x ∈ rest, countPB x.body = 0 :=
      fun x hx => h x (List.mem_cons_of_mem d hx)
    simp only [processDocs, List.map_cons, List.sum_cons]
    rw [countPB_processDoc rootDir flag d hd]
    have htot : totalMatched rootDir (d :: rest) =
        mpartOf rootDir d + totalMatched rootDir rest := by
      simp [totalMatched]
    by_cases hm : mpartOf rootDir d = 0
    · have hflag : (processDoc rootDir flag d).2.2 = flag := by
        rw [processDoc_snd_flag]
        exact addBackLinks_flag_of_zero _ flag
          (by rw [matched_ids_eq_mpart]; exact hm)
      rw [hflag, ih flag hrest, htot, hm]
      cases flag <;> simp
    · have hflag : (processDoc rootDir flag d).2.2 = true := by
        rw [processDoc_snd_flag]
        exact addBackLinks_flag_of_pos _ flag
          (by rw [matched_ids_eq_mpart]; omega)
      rw [hflag, ih true hrest, htot]
      cases flag <;> (simp; try omega)

end BuildHtml

namespace BuildHtml

theorem joinSecs_last (secs : List (List Item)) :
    (∀ s ∈ secs, s.getLast? = some Item.sectionClose) → secs ≠ [] →
      (joinSecs secs).getLast? = some Item.sectionClose := by
  induction secs with
  | nil => intro _ hne; exact absurd rfl hne
  | cons s rest ih =>
    intro h _
    cases rest with
    | nil =>
      show s.getLast? = some Item.sectionClose
      exact h s (List.mem_cons_self s [])
    | cons s2 r2 =>
      show (s ++ Item.text "\n" :: joinSecs (s2 :: r2)).getLast? = _
      have hj : (joinSecs (s2 :: r2)).getLast? = some Item.sectionClose :=
        ih (fun x hx => h x (List.mem_cons_of_mem s hx)) (by simp)
      have hne2 : joinSecs (s2 :: r2) ≠ [] := by
        intro hempty
        rw [hempty] at hj
        simp at hj
      obtain ⟨j, js, hjs⟩ := List.exists_cons_of_ne_nil hne2
      rw [List.getLast?_append]
      rw [hjs, List.getLast?_cons_cons, ← hjs, hj]
      rfl

theorem processDoc_last (rootDir : PathC) (flag : Bool) (d : PDoc) :
    ((processDoc rootDir flag d).2.1).getLast? = some Item.sectionClose := by
  show (Item.sectionOpen ("section-" ++ d.stem) d.fname ::
      (addBackLinks flag (_add_heading_ids ("section-" ++ d.stem)
        (rewriteSrcItems d.baseDir rootDir d.body)).1).1 ++ [Item.sectionClose]).getLast? = _
  rw [List.getLast?_concat]

theorem processDocs_secs_last (rootDir : PathC) (docs : List PDoc) :
    ∀ flag s, s ∈ (processDocs rootDir flag docs).2.1 →
      s.getLast? = some Item.sectionClose := by
  induction docs with
  | nil => intro flag s hs; simp [processDocs] at hs
  | cons d rest ih =>
    intro flag s hs
    simp only [processDocs] at hs
    rcases List.mem_cons.mp hs with h1 | h2
    · rw [h1]; exact processDoc_last rootDir flag d
    · exact ih _ s h2

end BuildHtml

namespace BuildHtml

theorem pbFollowed_cons_of_ne (x : Item) (l : List Item) (hx : x ≠ Item.pageBreak) :
    pbFollowed (x :: l) = pbFollowed l := by
  cases x <;> first | rfl | exact absurd rfl hx

theorem pbf_append (a b : List Item) :
    pbFollowed a = true → pbFollowed b = true → pbFollowed (a ++ b) = true := by
  induction a with
  | nil => intro _ hb; simpa using hb
  | cons x a' iha =>
    intro ha hb
    cases x with
    | pageBreak =>
      cases a' with
      | nil => simp [pbFollowed] at ha
      | cons y a'' =>
        cases y with
        | backToToc =>
          simp only [pbFollowed, Bool.and_eq_true] at ha
          have hres := iha ha.2 hb
          simp only [List.cons_append]
          simp only [pbFollowed, Bool.and_eq_true]
          constructor
          · trivial
          · simpa using hres
        | heading l attrs inner => simp [pbFollowed] at ha
        | text s => simp [pbFollowed] at ha
        | srcRef v => simp [pbFollowed] at ha
        | pageBreak => simp [pbFollowed] at ha
        | sectionOpen c d => simp [pbFollowed] at ha
        | sectionClose => simp [pbFollowed] at ha
    | heading l attrs inner =>
      rw [List.cons_append, pbFollowed_cons_of_ne _ _ (by simp)]
      rw [pbFollowed_cons_of_ne _ _ (by simp)] at ha
      exact iha ha hb
    | text s =>
      rw [List.cons_append, pbFollowed_cons_of_ne _ _ (by simp)]
      rw [pbFollowed_cons_of_ne _ _ (by simp)] at ha
      exact iha ha hb
    | srcRef v =>
      rw [List.cons_append, pbFollowed_cons_of_ne _ _ (by simp)]
      rw [pbFollowed_cons_of_ne _ _ (by simp)] at ha
      exact iha ha hb
    | backToToc =>
      rw [List.cons_append, pbFollowed_cons_of_ne _ _ (by simp)]
      rw [pbFollowed_cons_of_ne _ _ (by simp)] at ha
      exact iha ha hb
    | sectionOpen c d =>
      rw [List.cons_append, pbFollowed_cons_of_ne _ _ (by simp)]
      rw [pbFollowed_cons_of_ne _ _ (by simp)] at ha
      exact iha ha hb
    | sectionClose =>
      rw [List.cons_append, pbFollowed_cons_of_ne _ _ (by simp)]
      rw [pbFollowed_cons_of_ne _ _ (by simp)] at ha
      exact iha ha hb

end BuildHtml

namespace BuildHtml

theorem countPB_cons (x : Item) (l : List Item) :
    countPB (x :: l) = countPB l + (if isPBItem x then 1 else 0) := by
  unfold countPB
  rw [List.countP_cons]

theorem pbf_addBackLinks (items : List Item) :
    ∀ flag, countPB items = 0 → pbFollowed (addBackLinks flag items).1 = true := by
  induction items with
  | nil => intro flag _; rfl
  | cons it rest ih =>
    intro flag h0
    rw [countPB_cons] at h0
    cases it with
    | heading l attrs inner =>
      simp only [isPBItem] at h0
      by_cases hp : hasPartWord inner
      · cases flag with
        | true =>
          simp only [addBackLinks, hp, if_pos rfl]
          show pbFollowed (Item.pageBreak :: Item.backToToc ::
            Item.heading l attrs inner :: (addBackLinks true rest).1) = true
          simp only [pbFollowed, Bool.and_eq_true]
          refine ⟨trivial, ?_⟩
          show pbFollowed (Item.heading l attrs inner :: (addBackLinks true rest).1) = true
          rw [pbFollowed_cons_of_ne _ _ (by simp)]
          exact ih true (by omega)
        | false =>
          simp only [addBackLinks, hp]
          show pbFollowed (Item.backToToc ::
            Item.heading l attrs inner :: (addBackLinks true rest).1) = true
          rw [pbFollowed_cons_of_ne _ _ (by simp),
            pbFollowed_cons_of_ne _ _ (by simp)]
          exact ih true (by omega)
      · simp only [addBackLinks, hp]
        show pbFollowed (Item.heading l attrs inner ::
          (addBackLinks flag rest).1) = true
        rw [pbFollowed_cons_of_ne _ _ (by simp)]
        exact ih flag (by omega)
    | pageBreak => simp [isPBItem] at h0
    | text s =>
      simp only [isPBItem] at h0
      show pbFollowed (Item.text s :: (addBackLinks flag rest).1) = true
      rw [pbFollowed_cons_of_ne _ _ (by simp)]
      exact ih flag (by omega)
    | srcRef v =>
      simp only [isPBItem] at h0
      show pbFollowed (Item.srcRef v :: (addBackLinks flag rest).1) = true
      rw [pbFollowed_cons_of_ne _ _ (by simp)]
      exact ih flag (by omega)
    | backToToc =>
      simp only [isPBItem] at h0
      show pbFollowed (Item.backToToc :: (addBackLinks flag rest).1) = true
      rw [pbFollowed_cons_of_ne _ _ (by simp)]
      exact ih flag (by omega)
    | sectionOpen a b =>
      simp only [isPBItem] at h0
      show pbFollowed (Item.sectionOpen a b :: (addBackLinks flag rest).1) = true
      rw [pbFollowed_cons_of_ne _ _ (by simp)]
      exact ih flag (by omega)
    | sectionClose =>
      simp only [isPBItem] at h0
      show pbFollowed (Item.sectionClose :: (addBackLinks flag rest).1) = true
      rw [pbFollowed_cons_of_ne _ _ (by simp)]
      exact ih flag (by omega)

theorem pbf_processDoc (rootDir : PathC) (flag : Bool) (d : PDoc)
    (h0 : countPB d.body = 0) :
    pbFollowed (processDoc rootDir flag d).2.1 = true := by
  show pbFollowed ((Item.sectionOpen ("section-" ++ d.stem) d.fname ::
      (addBackLinks flag (_add_heading_ids ("section-" ++ d.stem)
        (rewriteSrcItems d.baseDir rootDir d.body)).1).1) ++ [Item.sectionClose]) = true
  apply pbf_append
  · rw [pbFollowed_cons_of_ne _ _ (by simp)]
    apply pbf_addBackLinks
    rw [countPB_add_heading_ids, countPB_rewriteSrcItems]
    exact h0
  · rfl

theorem pbf_joinSecs (secs : List (List Item)) :
    (∀ s ∈ secs, pbFollowed s = true) → pbFollowed (joinSecs secs) = true := by
  induction secs with
  | nil => intro _; rfl
  | cons s rest ih =>
    intro h
    cases rest with
    | nil => exact h s (List.mem_cons_self s [])
    | cons s2 r2 =>
      show pbFollowed (s ++ Item.text "\n" :: joinSecs (s2 :: r2)) = true
      apply pbf_append
      · exact h s (List.mem_cons_self _ _)
      · rw [pbFollowed_cons_of_ne _ _ (by simp)]
        exact ih (fun x hx => h x (List.mem_cons_of_mem s hx))

theorem pbf_processDocs_secs (rootDir : PathC) (docs : List PDoc) :
    ∀ flag, (∀ d ∈ docs, countPB d.body = 0) →
      ∀ s ∈ (processDocs rootDir flag docs).2.1, pbFollowed s = true := by
  induction docs with
  | nil => intro flag _ s hs; simp [processDocs] at hs
  | cons d rest ih =>
    intro flag h s hs
    simp only [processDocs] at hs
    rcases List.mem_cons.mp hs with h1 | h2
    · rw [h1]
      exact pbf_processDoc rootDir flag d (h d (List.mem_cons_self d rest))
    · exact ih _ (fun x hx => h x (List.mem_cons_of_mem d hx)) s h2

theorem pbf_build (rootDir : PathC) (docs : List PDoc)
    (h : ∀ d ∈ docs, countPB d.body = 0) :
    pbFollowed (bodyOfResult (build_combined_html rootDir docs)) = true := by
  cases docs with
  | nil => rfl
  | cons d rest =>
    show pbFollowed (joinSecs (processDocs rootDir false (d :: rest)).2.1) = true
    exact pbf_joinSecs _ (pbf_processDocs_secs rootDir (d :: rest) false h)

end BuildHtml

namespace BuildHtml

/-- C5 amended: the Document Composer inserts NO page-break boundary
between sections (it joins sections with a newline only); for fresh input
bodies (no pre-existing page breaks), the page breaks of the combined body
all come from the navigation rewrite — their number is the number of
section-marker headings minus one, each is immediately followed by a
back-to-TOC element (so they sit directly before marker headings, not at
section boundaries), and the combined body ends with the last section's
closing element, so no page break follows the last section. -/
theorem c5_page_breaks_from_nav_not_composer (rootDir : PathC) (docs : List PDoc)
    (h : ∀ d ∈ docs, countPB d.body = 0) :
    countPB (bodyOfResult (build_combined_html rootDir docs)) =
      totalMatched rootDir docs - 1 ∧
    pbFollowed (bodyOfResult (build_combined_html rootDir docs)) = true ∧
    (docs ≠ [] → (bodyOfResult (build_combined_html rootDir docs)).getLast? =
      some Item.sectionClose) := by
  refine ⟨?_, pbf_build rootDir docs h, ?_⟩
  · cases docs with
    | nil =>
      show countPB [] = totalMatched rootDir [] - 1
      simp [countPB, totalMatched]
    | cons d rest =>
      have hbody : bodyOfResult (build_combined_html rootDir (d :: rest)) =
          joinSecs (processDocs rootDir false (d :: rest)).2.1 := rfl
      rw [hbody, countPB_joinSecs, processDocs_countPB rootDir (d :: rest) false h]
      simp
  · intro hne
    cases docs with
    | nil => exact absurd rfl hne
    | cons d rest =>
      have hbody : bodyOfResult (build_combined_html rootDir (d :: rest)) =
          joinSecs (processDocs rootDir false (d :: rest)).2.1 := rfl
      rw [hbody]
      exact joinSecs_last _
        (fun s hs => processDocs_secs_last rootDir (d :: rest) false s hs)
        (by simp [processDocs])

/-- Witness for C5 amended at concrete documents. -/
theorem c5_page_breaks_from_nav_not_composer_witness :
    countPB (bodyOfResult (build_combined_html ["root"]
      [⟨"a", "a.html", "", ["root"], [Item.heading 1 "" "Part 1"]⟩,
       ⟨"b", "b.html", "", ["root"], [Item.heading 1 "" "Part 2"]⟩])) =
      totalMatched ["root"]
        [⟨"a", "a.html", "", ["root"], [Item.heading 1 "" "Part 1"]⟩,
         ⟨"b", "b.html", "", ["root"], [Item.heading 1 "" "Part 2"]⟩] - 1 :=
  (c5_page_breaks_from_nav_not_composer ["root"]
    [⟨"a", "a.html", "", ["root"], [Item.heading 1 "" "Part 1"]⟩,
     ⟨"b", "b.html", "", ["root"], [Item.heading 1 "" "Part 2"]⟩]
    (by decide)).1

end BuildHtml

namespace BuildHtml

theorem idxHeadings_anchors (pre : String) (hs : List (Nat × String)) :
    ∀ k, (∀ p ∈ hs, slugOf (displayOf p.2) ≠ "") →
      (idxHeadings pre k hs).map Heading.anchor =
        hs.map (fun p => pre ++ "-" ++ slugOf (displayOf p.2)) := by
  induction hs with
  | nil => intro k _; rfl
  | cons p rest ih =>
    obtain ⟨l, inner⟩ := p
    intro k h
    have hhead : mkAnchor pre l k (displayOf inner) =
        pre ++ "-" ++ slugOf (displayOf inner) := by
      unfold mkAnchor
      rw [if_pos (h (l, inner) (List.mem_cons_self (l, inner) rest))]
    have htail := ih (k + 1) (fun q hq => h q (List.mem_cons_of_mem (l, inner) hq))
    simp only [idxHeadings, List.map_cons, htail, hhead]

end BuildHtml

namespace BuildHtml

theorem add_heading_ids_records (pre : String) (items : List Item) :
    (_add_heading_ids pre items).2 = idxHeadings pre 0 (headingsOf items) := by
  have h := addHeadingIdsAux_records pre items []
  simpa [_add_heading_ids] using h

theorem nodupB_nodup (l : List String) (h : nodupB l = true) : l.Nodup := by
  induction l with
  | nil => exact List.nodup_nil
  | cons s rest ih =>
    unfold nodupB at h
    simp only [Bool.and_eq_true, List.all_eq_true] at h
    refine List.nodup_cons.mpr ⟨?_, ih h.2⟩
    intro hmem
    have hne := h.1 s hmem
    simp at hne

theorem stemsOk_pairwise (l : List String) (h : stemsOk l = true) :
    l.Pairwise (fun a b => ¬ a.data <+: b.data ∧ ¬ b.data <+: a.data) := by
  induction l with
  | nil => exact List.Pairwise.nil
  | cons s rest ih =>
    unfold stemsOk at h
    simp only [Bool.and_eq_true, List.all_eq_true] at h
    refine List.pairwise_cons.mpr ⟨?_, ih h.2⟩
    intro t ht
    have hb := h.1 t ht
    simp only [Bool.and_eq_true, Bool.not_eq_true'] at hb
    constructor
    · intro hp
      have hx : s.data.isPrefixOf t.data = true := List.isPrefixOf_iff_prefix.mpr hp
      rw [hb.1] at hx
      exact Bool.false_ne_true hx
    · intro hp
      have hx : t.data.isPrefixOf s.data = true := List.isPrefixOf_iff_prefix.mpr hp
      rw [hb.2] at hx
      exact Bool.false_ne_true hx

theorem fragSlugs_eq (items : List Item) :
    fragSlugs items = (headingsOf items).map fun p => slugOf (displayOf p.2) := rfl

theorem slugsOk_nonempty (items : List Item) (h : slugsOk items = true) :
    ∀ p ∈ headingsOf items, slugOf (displayOf p.2) ≠ "" := by
  unfold slugsOk at h
  simp only [Bool.and_eq_true, List.all_eq_true] at h
  intro p hp
  have hmem : slugOf (displayOf p.2) ∈ fragSlugs items := by
    rw [fragSlugs_eq]
    exact List.mem_map_of_mem _ hp
  have hx := h.1 _ hmem
  simpa using hx

theorem slugsOk_nodup (items : List Item) (h : slugsOk items = true) :
    (fragSlugs items).Nodup := by
  unfold slugsOk at h
  simp only [Bool.and_eq_true] at h
  exact nodupB_nodup _ h.2

theorem fragAnchors_shape (d : String × List Item) (h : slugsOk d.2 = true) :
    fragAnchors d =
      (fragSlugs d.2).map (fun s => ("section-" ++ d.1) ++ "-" ++ s) := by
  unfold fragAnchors
  rw [add_heading_ids_records,
    idxHeadings_anchors ("section-" ++ d.1) (headingsOf d.2) 0 (slugsOk_nonempty d.2 h),
    fragSlugs_eq, List.map_map]
  rfl

theorem dash_append_inj (pre : String) (a b : String)
    (hab : pre ++ "-" ++ a = pre ++ "-" ++ b) : a = b := by
  have hd := congrArg String.data hab
  simp only [String.data_append] at hd
  apply String.ext
  exact List.append_inj_right hd rfl

theorem fragAnchors_nodup (d : String × List Item) (h : slugsOk d.2 = true) :
    (fragAnchors d).Nodup := by
  rw [fragAnchors_shape d h]
  apply List.Nodup.map
  · intro a b hab
    exact dash_append_inj _ a b hab
  · exact slugsOk_nodup d.2 h

end BuildHtml

namespace BuildHtml

theorem fragAnchors_disjoint (d1 d2 : String × List Item)
    (h1 : slugsOk d1.2 = true) (h2 : slugsOk d2.2 = true)
    (hpre : ¬ d1.1.data <+: d2.1.data ∧ ¬ d2.1.data <+: d1.1.data) :
    List.Disjoint (fragAnchors d1) (fragAnchors d2) := by
  rw [fragAnchors_shape d1 h1, fragAnchors_shape d2 h2]
  intro a ha1 ha2
  obtain ⟨x, _, hax⟩ := List.mem_map.mp ha1
  obtain ⟨y, _, hay⟩ := List.mem_map.mp ha2
  have heq : ("section-" ++ d1.1) ++ "-" ++ x = ("section-" ++ d2.1) ++ "-" ++ y :=
    hax.trans hay.symm
  have hd := congrArg String.data heq
  simp only [String.data_append, List.append_assoc] at hd
  have hcanc : d1.1.data ++ ("-".data ++ x.data) =
      d2.1.data ++ ("-".data ++ y.data) := List.append_inj_right hd rfl
  have hp1 : d1.1.data <+: d2.1.data ++ ("-".data ++ y.data) := by
    rw [← hcanc]
    exact List.prefix_append _ _
  have hp2 : d2.1.data <+: d2.1.data ++ ("-".data ++ y.data) :=
    List.prefix_append _ _
  rcases List.prefix_or_prefix_of_prefix hp1 hp2 with h | h
  · exact hpre.1 h
  · exact hpre.2 h

/-- C3 amended: anchor ids are unique across the combined document under
two extra conditions the code actually requires: (a) no fragment stem is a
string prefix of another (pairwise distinct names alone do not suffice,
e.g. stems "a" and "a-b" can collide), and (b) within each fragment all
heading slugs are non-empty and pairwise distinct (two headings with the
same display text in one fragment collide, as the spec's own §4.3 edge
note records). -/
theorem c3_anchor_uniqueness_conditional (docs : List (String × List Item))
    (h1 : stemsOk (docs.map Prod.fst) = true)
    (h2 : ∀ d ∈ docs, slugsOk d.2 = true) :
    (docs.flatMap fragAnchors).Nodup := by
  rw [List.nodup_flatMap]
  constructor
  · intro d hd
    exact fragAnchors_nodup d (h2 d hd)
  · have hp := stemsOk_pairwise _ h1
    rw [List.pairwise_map] at hp
    refine List.Pairwise.imp_of_mem ?_ hp
    intro a b ha hb hR
    exact fragAnchors_disjoint a b (h2 a ha) (h2 b hb) hR

/-- Witness for C3 amended at two concrete fragments. -/
theorem c3_anchor_uniqueness_conditional_witness :
    stemsOk (([("a", [Item.heading 1 "" "Alpha"]),
      ("b", [Item.heading 1 "" "Beta"])] : List (String × List Item)).map Prod.fst) = true ∧
    (([("a", [Item.heading 1 "" "Alpha"]),
      ("b", [Item.heading 1 "" "Beta"])] : List (String × List Item)).flatMap
        fragAnchors).Nodup :=
  ⟨by decide, c3_anchor_uniqueness_conditional _ (by decide) (by decide)⟩

end BuildHtml

namespace BuildHtml

theorem takeWhile_append_lower (l rest : List Char) (hl : l.all isLowerAlpha = true) :
    (l ++ (':' :: rest)).takeWhile isLowerAlpha = l := by
  induction l with
  | nil => rfl
  | cons c l' ih =>
    simp only [List.all_cons, Bool.and_eq_true] at hl
    simp [List.takeWhile_cons, hl.1, ih hl.2]

theorem string_ne_data (s : String) (h : s ≠ "") : s.data ≠ [] := by
  intro hd
  exact h (String.ext hd)

theorem scheme_match_true (scheme rest : String) (hne : scheme ≠ "")
    (hall : scheme.data.all isLowerAlpha = true) :
    schemeSlashMatch (scheme ++ "://" ++ rest) = true := by
  have hdata : (scheme ++ "://" ++ rest).data =
      scheme.data ++ (':' :: '/' :: '/' :: rest.data) := by
    simp only [String.data_append, List.append_assoc]
    rfl
  have hempty : scheme.data.isEmpty = false := by
    cases hs : scheme.data with
    | nil => exact absurd hs (string_ne_data scheme hne)
    | cons a b => rfl
  unfold schemeSlashMatch
  rw [hdata]
  simp only [takeWhile_append_lower scheme.data ('/' :: '/' :: rest.data) hall,
    List.drop_left, hempty]
  simp

/-- C6 amended: the Asset Path Rewriter passes through a value that the
regex `^(?:[a-z]+:)?//` matches (a protocol-relative `//...` value or a
LOWERCASE scheme followed by `://`), a `data:` URI, or a `#` fragment; any
OTHER value — including scheme URIs without `//` such as `mailto:` and
uppercase-scheme URLs, which the claim wrongly called pass-throughs — is
resolved against the fragment's directory: if the resolved path lies
inside the root it is rewritten to the root-relative forward-slash path,
otherwise it is returned unchanged. -/
theorem c6_rewrite_src_branches :
    (∀ (src : String) (base root : PathC), startsWithS "//" src = true →
      rewriteSrcValue base root src = src) ∧
    (∀ (scheme rest : String) (base root : PathC), scheme ≠ "" →
      scheme.data.all isLowerAlpha = true →
      rewriteSrcValue base root (scheme ++ "://" ++ rest) = scheme ++ "://" ++ rest) ∧
    (∀ (src : String) (base root : PathC),
      startsWithS "data:" src = true ∨ startsWithS "#" src = true →
      rewriteSrcValue base root src = src) ∧
    (∀ (src : String) (base root : PathC) (rel : List String),
      (schemeSlashMatch src || startsWithS "data:" src || startsWithS "#" src) = false →
      resolvePath base src = root ++ rel →
      rewriteSrcValue base root src = relPosix rel) ∧
    (∀ (src : String) (base root : PathC),
      (schemeSlashMatch src || startsWithS "data:" src || startsWithS "#" src) = false →
      ¬ (root <+: resolvePath base src) →
      rewriteSrcValue base root src = src) := by
  refine ⟨?_, ?_, ?_, ?_, ?_⟩
  · intro src base root h
    have hsrc : ∃ t, src.data = '/' :: '/' :: t := by
      have hp : ("//" : String).data <+: src.data := List.isPrefixOf_iff_prefix.mp h
      obtain ⟨t, ht⟩ := hp
      exact ⟨t, ht.symm⟩
    obtain ⟨t, ht⟩ := hsrc
    have hs : schemeSlashMatch src = true := by
      unfold schemeSlashMatch
      rw [ht]
      simp
    simp [rewriteSrcValue, hs]
  · intro scheme rest base root hne hall
    simp [rewriteSrcValue, scheme_match_true scheme rest hne hall]
  · intro src base root h
    rcases h with h | h <;> simp [rewriteSrcValue, h]
  · intro src base root rel hpass hres
    unfold rewriteSrcValue
    rw [hpass]
    simp only [Bool.false_eq_true, if_false]
    unfold relTo
    rw [hres]
    have hp : root.isPrefixOf (root ++ rel) = true :=
      List.isPrefixOf_iff_prefix.mpr (List.prefix_append root rel)
    rw [hp]
    simp [List.drop_left]
  · intro src base root hpass hnp
    unfold rewriteSrcValue
    rw [hpass]
    simp only [Bool.false_eq_true, if_false]
    unfold relTo
    have hp : root.isPrefixOf (resolvePath base src) = false := by
      cases hb : root.isPrefixOf (resolvePath base src) with
      | false => rfl
      | true => exact absurd ( List.isPrefixOf_iff_prefix.mp hb) hnp
    rw [hp]
    simp

/-- Witness for C6 amended at concrete values. -/
theorem c6_rewrite_src_branches_witness :
    rewriteSrcValue ["root", "sub"] ["root"] "https://cdn.example.com/lib.js" =
      "https://cdn.example.com/lib.js" ∧
    rewriteSrcValue ["root", "sub"] ["root"] "data:image/png;base64,AA" =
      "data:image/png;base64,AA" ∧
    rewriteSrcValue ["root", "sub"] ["root"] "images/fig.png" = "sub/images/fig.png" ∧
    rewriteSrcValue ["root", "sub"] ["root"] "../../escape.png" = "../../escape.png" :=
  ⟨c6_rewrite_src_branches.2.1 "https" "cdn.example.com/lib.js" ["root", "sub"] ["root"]
      (by decide) (by decide),
   c6_rewrite_src_branches.2.2.1 "data:image/png;base64,AA" ["root", "sub"] ["root"]
      (Or.inl (by decide)),
   c6_rewrite_src_branches.2.2.2.1 "images/fig.png" ["root", "sub"] ["root"] ["sub", "images", "fig.png"]
      (by decide) (by decide),
   c6_rewrite_src_branches.2.2.2.2 "../../escape.png" ["root", "sub"] ["root"]
      (by decide) (by decide)⟩

end BuildHtml

namespace BuildHtml

theorem isPrefixCI_refl_append (l t : List Char) : isPrefixCI l (l ++ t) = true := by
  induction l with
  | nil => rfl
  | cons c l' ih => simp [isPrefixCI, ih]

theorem tryOpenTag_nil (tag : List Char) : tryOpenTag tag [] = none := by
  unfold tryOpenTag
  have h : isPrefixCI ('<' :: tag) [] = false := rfl
  rw [h]
  simp

theorem tagScan_skip (tag : List Char) :
    ∀ pre rest : List Char,
      (∀ j, j < pre.length →
        isPrefixCI ('<' :: tag) ((pre ++ rest).drop j) = false) →
      tagScan tag (pre ++ rest) = tagScan tag rest := by
  intro pre
  induction pre with
  | nil => intro rest _; rfl
  | cons c pre' ih =>
    intro rest h
    have h0 : isPrefixCI ('<' :: tag) (c :: (pre' ++ rest)) = false := by
      have := h 0 (by simp)
      simpa using this
    have htry : tryOpenTag tag (c :: (pre' ++ rest)) = none := by
      unfold tryOpenTag
      rw [h0]
      simp
    show tagScan tag (c :: (pre' ++ rest)) = tagScan tag rest
    rw [show tagScan tag (c :: (pre' ++ rest)) =
      (match tryOpenTag tag (c :: (pre' ++ rest)) with
       | some inner => some inner
       | none => tagScan tag (pre' ++ rest)) from rfl, htry]
    exact ih rest (fun j hj => by
      have := h (j + 1) (by simpa using Nat.succ_lt_succ hj)
      simpa using this)

theorem dropWhile_nongt (attrs rest2 : List Char)
    (h : attrs.all (fun c => c != '>') = true) :
    (attrs ++ '>' :: rest2).dropWhile (fun c => c != '>') = '>' :: rest2 := by
  induction attrs with
  | nil => simp [List.dropWhile_cons]
  | cons a attrs' ih =>
    simp only [List.all_cons, Bool.and_eq_true] at h
    simp [List.dropWhile_cons, h.1, ih h.2]

theorem findSub_at (needle : List Char) :
    ∀ inner rest : List Char,
      (∀ j, j < inner.length →
        isPrefixCI needle ((inner ++ rest).drop j) = false) →
      isPrefixCI needle rest = true →
      findSubCI needle (inner ++ rest) = some inner.length := by
  intro inner
  induction inner with
  | nil =>
    intro rest _ hpre
    cases rest with
    | nil => simp [findSubCI, hpre]
    | cons c cs => simp [findSubCI, hpre]
  | cons i inner' ih =>
    intro rest h hpre
    have h0 : isPrefixCI needle (i :: (inner' ++ rest)) = false := by
      have := h 0 (by simp)
      simpa using this
    show findSubCI needle (i :: (inner' ++ rest)) = some (inner'.length + 1)
    unfold findSubCI
    rw [h0]
    simp only [Bool.false_eq_true, if_false]
    rw [ih rest (fun j hj => by
      have := h (j + 1) (by simpa using Nat.succ_lt_succ hj)
      simpa using this) hpre]
    rfl

end BuildHtml

namespace BuildHtml

theorem tryOpen_at (tag attrs inner post : List Char)
    (h2 : attrs.all (fun c => c != '>') = true)
    (h3 : ∀ j, j < inner.length →
      isPrefixCI (closeTag tag) ((inner ++ (closeTag tag ++ post)).drop j) = false) :
    tryOpenTag tag (('<' :: tag) ++ (attrs ++ ('>' :: (inner ++ (closeTag tag ++ post))))) =
      some inner := by
  unfold tryOpenTag
  rw [isPrefixCI_refl_append]
  simp only [if_true]
  have hdrop : (('<' :: tag) ++ (attrs ++ ('>' :: (inner ++ (closeTag tag ++ post))))).drop
      (tag.length + 1) = attrs ++ ('>' :: (inner ++ (closeTag tag ++ post))) := by
    have hlen : ('<' :: tag).length = tag.length + 1 := by simp
    rw [← hlen, List.drop_left]
  rw [hdrop]
  rw [dropWhile_nongt attrs _ h2]
  simp only []
  rw [findSub_at (closeTag tag) inner (closeTag tag ++ post) h3
    (isPrefixCI_refl_append _ _)]
  simp [List.take_left]

theorem tagScan_some (tag : List Char) :
    ∀ (cs : List Char) (r : List Char), tagScan tag cs = some r →
      ∃ j, tryOpenTag tag (cs.drop j) = some r := by
  intro cs
  induction cs with
  | nil => intro r h; simp [tagScan] at h
  | cons c cs ih =>
    intro r h
    rw [show tagScan tag (c :: cs) =
      (match tryOpenTag tag (c :: cs) with
       | some inner => some inner
       | none => tagScan tag cs) from rfl] at h
    cases htry : tryOpenTag tag (c :: cs) with
    | some inner =>
      rw [htry] at h
      simp only [Option.some.injEq] at h
      exact ⟨0, by rw [List.drop_zero, htry, h]⟩
    | none =>
      rw [htry] at h
      obtain ⟨j, hj⟩ := ih r h
      exact ⟨j + 1, by simpa using hj⟩

end BuildHtml

namespace BuildHtml

/-- C8: the Fragment Extractor returns the (whitespace-stripped) inner
text between the first matching open/close tag pair — for any text of the
form `pre <tag attrs> inner </tag> post` where no earlier position can
start an opening match and the closing tag does not occur inside the
inner text, the result is the stripped inner text; when no position of the
text admits a match, the result is the empty string; the function is total
(never raises), and a document with no body tag yields the empty fragment
while assembly still completes. -/
theorem c8_tag_extractor_first_pair :
    (∀ (tag pre attrs inner post : List Char),
      (∀ j, j < pre.length → isPrefixCI ('<' :: tag)
        ((pre ++ (('<' :: tag) ++ (attrs ++ ('>' ::
          (inner ++ (closeTag tag ++ post)))))).drop j) = false) →
      attrs.all (fun c => c != '>') = true →
      (∀ j, j < inner.length → isPrefixCI (closeTag tag)
        ((inner ++ (closeTag tag ++ post)).drop j) = false) →
      tagF (String.mk (pre ++ (('<' :: tag) ++ (attrs ++ ('>' ::
          (inner ++ (closeTag tag ++ post)))))) ) (String.mk tag) =
        String.mk (pyStrip inner)) ∧
    (∀ (text tag : String),
      (∀ j, j < text.data.length → tryOpenTag tag.data (text.data.drop j) = none) →
      tagF text tag = "") ∧
    (tagF "<html><head><title>T</title></head><p>no body</p></html>" "body" = "" ∧
     (build_combined_html ["root"]
       [⟨"nb", "nb.html",
         tagF "<html><head><title>T</title></head><p>no body</p></html>" "head",
         ["root"],
         [Item.text (tagF "<html><head><title>T</title></head><p>no body</p></html>"
           "body")]⟩]).isOk = true) := by
  refine ⟨?_, ?_, by decide, by decide⟩
  · intro tag pre attrs inner post h1 h2 h3
    have hscan : tagScan tag (('<' :: tag) ++ (attrs ++ ('>' ::
        (inner ++ (closeTag tag ++ post))))) = some inner := by
      rw [show tagScan tag (('<' :: tag) ++ (attrs ++ ('>' ::
          (inner ++ (closeTag tag ++ post))))) =
        (match tryOpenTag tag (('<' :: tag) ++ (attrs ++ ('>' ::
            (inner ++ (closeTag tag ++ post))))) with
         | some i => some i
         | none => tagScan tag (tag ++ (attrs ++ ('>' ::
             (inner ++ (closeTag tag ++ post)))))) from rfl]
      rw [tryOpen_at tag attrs inner post h2 h3]
    show tagF (String.mk _) (String.mk tag) = _
    unfold tagF
    rw [show (String.mk (pre ++ (('<' :: tag) ++ (attrs ++ ('>' ::
        (inner ++ (closeTag tag ++ post))))))).data =
      pre ++ (('<' :: tag) ++ (attrs ++ ('>' ::
        (inner ++ (closeTag tag ++ post))))) from rfl]
    rw [show (String.mk tag).data = tag from rfl]
    rw [tagScan_skip tag pre _ h1, hscan]
  · intro text tag h
    unfold tagF
    cases hscan : tagScan tag.data text.data with
    | none => rfl
    | some r =>
      obtain ⟨j, hj⟩ := tagScan_some tag.data text.data r hscan
      by_cases hlt : j < text.data.length
      · rw [h j hlt] at hj
        cases hj
      · have hdrop : text.data.drop j = [] :=
          List.drop_of_length_le (by omega)
        rw [hdrop, tryOpenTag_nil] at hj
        cases hj

/-- Witness for C8 at a concrete document and tag. -/
theorem c8_tag_extractor_first_pair_witness :
    tagF "<html><head class=\x22m\x22>Inner Text</head><p>t</p></html>" "head" =
      "Inner Text" ∧
    tagF "<p>x</p>" "div" = "" :=
  ⟨by
    have h := c8_tag_extractor_first_pair.1 "head".data "<html>".data " class=\x22m\x22".data
      "Inner Text".data "<p>t</p></html>".data (by decide) (by decide) (by decide)
    exact h,
   c8_tag_extractor_first_pair.2.1 "<p>x</p>" "div" (by decide)⟩

end BuildHtml
